import Mathlib

/-!
Verification of the connection lifecycle and redirection engine of
serial-server.py (an RFC 2217 serial-to-TCP redirector).  The definitions below
are a shallow embedding of the script: external I/O (sockets, the serial
device) is represented by explicit streams of observable outcomes, and each
function of the script becomes a Lean function over those streams that returns
the trace of observable events it performs.
-/

namespace SerialServer

/-- Exceptions relevant to serial-server.py.  In Python 3, socket.error is an
alias of OSError; serial.SerialException derives from IOError, which is the
same class as OSError; BlockingIOError and socket.timeout are OSError
subclasses; KeyboardInterrupt is not an OSError. -/
inductive PyExn where
  | socketError
  | blockingIOError
  | serialException
  | socketTimeout
  | keyboardInterrupt
  deriving DecidableEq, Repr

/-- Whether the exception belongs to the OSError family (Python 3). -/
def PyExn.isOSError : PyExn → Bool
  | .keyboardInterrupt => false
  | _ => true

/-- An except clause naming socket.error catches exactly the OSError family,
since socket.error is an alias of OSError in Python 3. -/
def PyExn.caughtBySocketError (e : PyExn) : Bool := e.isOSError

/-- Whether the exception is a BlockingIOError. -/
def PyExn.isBlockingIOError : PyExn → Bool
  | .blockingIOError => true
  | _ => false

/-- One observable outcome of a recv call on the client socket, in order of
occurrence: a chunk of available bytes, the peer having closed (recv returns
an empty byte string), a BlockingIOError, or a socket.error. -/
inductive SockEv where
  | chunk (bs : List Nat)
  | closed
  | wouldBlock
  | sockErr
  deriving DecidableEq, Repr

/-- A socket stream is well formed when every data chunk is nonempty. -/
def streamWF (s : List SockEv) : Bool :=
  s.all fun e =>
    match e with
    | SockEv.chunk bs => !bs.isEmpty
    | _ => true

/-- Semantics of sock.recv(1): consume at most one byte of the next stream
event.  Returns none when no event is available (the call would not return),
otherwise the outcome (bytes returned on the left, exception raised on the
right) together with the remaining stream. -/
def recv1 : List SockEv → Option ((List Nat ⊕ PyExn) × List SockEv)
  | [] => none
  | SockEv.chunk [] :: t => some (Sum.inl [], t)
  | SockEv.chunk (b :: bs) :: t =>
      some (Sum.inl [b], if bs.isEmpty then t else SockEv.chunk bs :: t)
  | SockEv.closed :: t => some (Sum.inl [], t)
  | SockEv.wouldBlock :: t => some (Sum.inr PyExn.blockingIOError, t)
  | SockEv.sockErr :: t => some (Sum.inr PyExn.socketError, t)

/-- Embedding of is_socket_connected (serial-server.py lines 149-161).  The
argument is none for a missing socket (the Python None), otherwise the pending
event stream of the socket.  Returns none when the underlying recv would not
return, otherwise the boolean result and the remaining stream.  A recv raising
either BlockingIOError or socket.error is caught by the except socket.error
clause (both are OSErrors) and the function returns true. -/
def is_socket_connected : Option (List SockEv) → Option (Bool × List SockEv)
  | none => some (false, [])
  | some s =>
    match recv1 s with
    | none => none
    | some (Sum.inl data, s') => some (!data.isEmpty, s')
    | some (Sum.inr _, s') => some (true, s')

/-- State of one Redirector instance: its liveness flag (self.alive). -/
structure RState where
  alive : Bool
  deriving DecidableEq, Repr

/-- Thread joins performed by Redirector.stop. -/
inductive JoinEv where
  | joinRead
  | joinPoll
  deriving DecidableEq, Repr

/-- Embedding of Redirector.stop (lines 136-144): when the flag is set, clear
it and join the reader and status-poll threads; otherwise return at once with
no joins and no state change. -/
def rstop (r : RState) : RState × List JoinEv :=
  if r.alive then (⟨false⟩, [JoinEv.joinRead, JoinEv.joinPoll]) else (r, [])

/-- The operations of one Redirector instance that touch the liveness flag:
shortcircuit sets it true at session start (line 75); the reader clears it
after its loop (line 103); stop clears it when set (line 142), both when
called directly and at the end of the writer (line 134); the status poller
only reads it (line 63). -/
inductive ROp where
  | shortcircuitStart
  | readerExitClear
  | stopOp
  | writerStop
  | pollerCheck
  deriving DecidableEq, Repr

/-- Effect of each Redirector operation on the liveness flag. -/
def applyROp : ROp → RState → RState
  | ROp.shortcircuitStart, _ => ⟨true⟩
  | ROp.readerExitClear, _ => ⟨false⟩
  | ROp.stopOp, r => (rstop r).1
  | ROp.writerStop, r => (rstop r).1
  | ROp.pollerCheck, r => r

/-- Observable events performed by the script. -/
inductive Ev where
  | logWaitingClient
  | acceptOk (host : String)
  | probeRecv (result : Bool)
  | denyLog (host : String)
  | clientClose
  | setNoDelay
  | setNonBlocking
  | serialOpenTry
  | serialOpenOk
  | serialCloseEv
  | logPermission
  | logWaitingSerial
  | logConnected
  | getSettingsEv (cfg : Nat)
  | setDtr (b : Bool)
  | setRts (b : Bool)
  | mkRedirectorEv
  | startReaderThread
  | startPollerThread
  | recvCall (n : Nat)
  | serialWriteEv (chunk : List Nat)
  | sockWriteEv (chunk : List Nat)
  | logErrorEv
  | logDebugEv
  | stopCallEv
  | joinEv
  | logDisconnected
  | applySettingsEv (cfg : Nat)
  deriving DecidableEq, Repr

/-- One observation made by the writer loop at the top of an iteration: either
the liveness flag is seen false, or a recv outcome paired with the outcome of
the serial write that follows a nonempty data chunk (none means the write
returned, some e means it raised e). -/
inductive WIn where
  | flagFalse
  | recvEv (ev : SockEv) (serialRes : Option PyExn)
  deriving DecidableEq, Repr

/-- Embedding of the loop of Redirector.writer (lines 117-132).  The whole
body sits in one try statement whose clauses catch BlockingIOError (pass) and
then socket.error (log and break); an empty recv result breaks out of the
loop; a chunk is filtered and written to the serial device.  Returns none when
the observations run out while the loop would continue, otherwise the trace,
the liveness flag at loop exit, and an exception escaping the loop. -/
def writerLoop : List WIn → Option (List Ev × Bool × Option PyExn)
  | [] => none
  | WIn.flagFalse :: _ => some ([], false, none)
  | WIn.recvEv ev sres :: rest =>
    match ev with
    | SockEv.closed => some ([Ev.recvCall 1024], true, none)
    | SockEv.wouldBlock =>
        match writerLoop rest with
        | none => none
        | some (tr, a, esc) => some (Ev.recvCall 1024 :: tr, a, esc)
    | SockEv.sockErr => some ([Ev.recvCall 1024, Ev.logErrorEv], true, none)
    | SockEv.chunk bs =>
        if bs.isEmpty then some ([Ev.recvCall 1024], true, none)
        else
          match sres with
          | none =>
            match writerLoop rest with
            | none => none
            | some (tr, a, esc) =>
                some (Ev.recvCall 1024 :: Ev.serialWriteEv bs :: tr, a, esc)
          | some e =>
            if e.isBlockingIOError then
              match writerLoop rest with
              | none => none
              | some (tr, a, esc) =>
                  some (Ev.recvCall 1024 :: Ev.serialWriteEv bs :: tr, a, esc)
            else if e.caughtBySocketError then
              some ([Ev.recvCall 1024, Ev.serialWriteEv bs, Ev.logErrorEv], true, none)
            else
              some ([Ev.recvCall 1024, Ev.serialWriteEv bs], true, some e)

/-- Embedding of Redirector.writer (lines 113-134): the loop, then the debug
log and the stop call at line 134.  Returns the trace, the liveness flag after
the run, and an exception escaping the writer, in which case the stop call at
line 134 is not reached. -/
def writerRun (ins : List WIn) : Option (List Ev × RState × Option PyExn) :=
  match writerLoop ins with
  | none => none
  | some (tr, a, some e) => some (tr, ⟨a⟩, some e)
  | some (tr, a, none) =>
      let p := rstop ⟨a⟩
      some (tr ++ [Ev.logDebugEv, Ev.stopCallEv] ++ p.2.map (fun _ => Ev.joinEv), p.1, none)

/-- One observation made by the reader loop at the top of an iteration: the
flag seen false, a serial read raising an exception, or a serial read
returning bytes paired with the outcome of the socket write performed when the
bytes are nonempty. -/
inductive RIn where
  | flagFalse
  | readExn (e : PyExn)
  | readData (bs : List Nat) (writeRes : Option PyExn)
  deriving DecidableEq, Repr

/-- Embedding of Redirector.reader (lines 86-104).  The loop body sits in one
try statement with a single except socket.error clause (log and break); after
the loop the flag is assigned false (line 103).  Returns the trace, the flag
after the run, and an exception escaping the function, in which case the
assignment at line 103 is not reached. -/
def readerRun : List RIn → Option (List Ev × RState × Option PyExn)
  | [] => none
  | RIn.flagFalse :: _ => some ([], ⟨false⟩, none)
  | RIn.readExn e :: _ =>
      if e.caughtBySocketError then some ([Ev.logErrorEv], ⟨false⟩, none)
      else some ([], ⟨true⟩, some e)
  | RIn.readData bs wres :: rest =>
      if bs.isEmpty then readerRun rest
      else
        match wres with
        | none =>
          match readerRun rest with
          | none => none
          | some (tr, r, esc) => some (Ev.sockWriteEv bs :: tr, r, esc)
        | some e =>
          if e.caughtBySocketError then
            some ([Ev.sockWriteEv bs, Ev.logErrorEv], ⟨false⟩, none)
          else some ([Ev.sockWriteEv bs], ⟨true⟩, some e)

/-- All exceptions occurring in a reader observation are OSErrors. -/
def rinOS : RIn → Bool
  | RIn.flagFalse => true
  | RIn.readExn e => e.isOSError
  | RIn.readData _ none => true
  | RIn.readData _ (some e) => e.isOSError

/-- All exceptions occurring in a writer observation are OSErrors. -/
def winOS : WIn → Bool
  | WIn.flagFalse => true
  | WIn.recvEv _ none => true
  | WIn.recvEv _ (some e) => e.isOSError

/-- The whitelist of hosts allowed to connect (lines 37-41). -/
def IP_WHITELIST : List String := ["localhost", "0.0.0.0", "127.0.0.1"]

/-- One outcome of the accept call inside the accept loop (lines 236-244):
either a socket.timeout, or a connection from a host whose socket carries the
given pending event stream. -/
inductive AcceptRes where
  | timeout
  | conn (host : String) (stream : List SockEv)
  deriving DecidableEq, Repr

/-- One outcome of a ser.open() attempt inside the serial open loop (lines
259-278): success, or a SerialException classified by the substring checks of
lines 265-274. -/
inductive OpenRes where
  | ok
  | errAlreadyOpen
  | errPermission
  | errOther
  deriving DecidableEq, Repr

/-- State of the serial device: whether it is open, its DTR and RTS lines, and
an opaque token standing for the settings bundle that ser.get_settings()
returns and ser.apply_settings() restores (the bundle does not include the DTR
and RTS line states). -/
structure SerialPort where
  isOpen : Bool
  dtr : Bool
  rts : Bool
  cfg : Nat
  deriving DecidableEq, Repr

/-- Embedding of the accept loop (lines 233-244): client starts as None, so
the probe fails and the body runs; a timeout logs a waiting notice and
retries; after a successful accept, the probe at the loop head decides whether
to keep this client or accept another.  Returns the trace, the accepted host
and the remaining event stream of the accepted socket. -/
def acceptPhase : List AcceptRes → Option (List Ev × String × List SockEv)
  | [] => none
  | AcceptRes.timeout :: rest =>
    match acceptPhase rest with
    | none => none
    | some (tr, h, s) => some (Ev.logWaitingClient :: tr, h, s)
  | AcceptRes.conn h s :: rest =>
    match is_socket_connected (some s) with
    | none => none
    | some (true, s') => some ([Ev.acceptOk h, Ev.probeRecv true], h, s')
    | some (false, _) =>
      match acceptPhase rest with
      | none => none
      | some (tr, h', s'') =>
          some (Ev.acceptOk h :: Ev.probeRecv false :: tr, h', s'')

/-- Embedding of the serial open loop (lines 258-278): while the port is not
open, attempt to open it; on success the loop exits; an already-open failure
closes the port and retries; a permission failure logs an error and retries;
any other failure logs a waiting notice and retries.  Returns none when the
attempts run out with the port still closed. -/
def openPhase (ser : SerialPort) : List OpenRes → Option (List Ev × SerialPort)
  | [] => if ser.isOpen then some ([], ser) else none
  | r :: rest =>
    if ser.isOpen then some ([], ser)
    else
      match r with
      | OpenRes.ok =>
          some ([Ev.serialOpenTry, Ev.serialOpenOk], { ser with isOpen := true })
      | OpenRes.errAlreadyOpen =>
        match openPhase { ser with isOpen := false } rest with
        | none => none
        | some (tr, s) => some (Ev.serialOpenTry :: Ev.serialCloseEv :: tr, s)
      | OpenRes.errPermission =>
        match openPhase ser rest with
        | none => none
        | some (tr, s) => some (Ev.serialOpenTry :: Ev.logPermission :: tr, s)
      | OpenRes.errOther =>
        match openPhase ser rest with
        | none => none
        | some (tr, s) => some (Ev.serialOpenTry :: Ev.logWaitingSerial :: tr, s)

/-- Builds the writer observations for a session from the remaining socket
stream and a list of serial write outcomes, consumed in step. -/
def mkWIns : List SockEv → List (Option PyExn) → List WIn
  | [], _ => []
  | e :: t, rs => WIn.recvEv e (rs.headD none) :: mkWIns t rs.tail

/-- How one iteration of the main loop ended: the client was denied and the
loop continued, the session ran and teardown completed, or an exception
escaped the try/finally after teardown completed. -/
inductive LoopExit where
  | denied
  | sessionDone
  | raised (e : PyExn)
  deriving DecidableEq, Repr

/-- Events of the finally block (lines 302-313) restoring the settings
snapshot taken before the session. -/
def teardownTrace (snapshot : Nat) : List Ev :=
  [Ev.logDisconnected, Ev.stopCallEv, Ev.clientClose, Ev.setDtr false,
   Ev.setRts false, Ev.applySettingsEv snapshot, Ev.serialCloseEv]

/-- Embedding of one iteration of the main loop body (lines 230-313): accept
and probe a client, check the whitelist (closing the socket and continuing on
denial), set TCP_NODELAY and non-blocking mode, open the serial device,
snapshot its settings, assert DTR and RTS, construct the Redirector and run
shortcircuit inside try/finally; the finally block stops the redirector,
closes the client, deasserts DTR and RTS, reapplies the snapshot and closes
the serial device.  Returns the event trace, the serial state after the
iteration and how the iteration ended. -/
def loopBody (ser : SerialPort) (accepts : List AcceptRes) (opens : List OpenRes)
    (sres : List (Option PyExn)) : Option (List Ev × SerialPort × LoopExit) :=
  match acceptPhase accepts with
  | none => none
  | some (trA, host, s') =>
    if host ∈ IP_WHITELIST then
      match openPhase ser opens with
      | none => none
      | some (trO, ser1) =>
        match writerRun (mkWIns s' sres) with
        | none => none
        | some (trW, _, esc) =>
          some (trA ++ [Ev.setNoDelay, Ev.setNonBlocking] ++ trO
              ++ [Ev.logConnected, Ev.getSettingsEv ser1.cfg, Ev.setDtr true,
                  Ev.setRts true, Ev.mkRedirectorEv, Ev.startReaderThread,
                  Ev.startPollerThread]
              ++ trW ++ teardownTrace ser1.cfg,
            ⟨false, false, false, ser1.cfg⟩,
            match esc with
            | none => LoopExit.sessionDone
            | some e => LoopExit.raised e)
    else
      some (trA ++ [Ev.denyLog host, Ev.clientClose], ser, LoopExit.denied)

/-- Serial-device operations among the events. -/
def isSerialEv : Ev → Bool
  | Ev.serialOpenTry => true
  | Ev.serialOpenOk => true
  | Ev.serialCloseEv => true
  | Ev.getSettingsEv _ => true
  | Ev.setDtr _ => true
  | Ev.setRts _ => true
  | Ev.applySettingsEv _ => true
  | Ev.serialWriteEv _ => true
  | _ => false

/-- Whether the event is a successful accept. -/
def isAcceptOk : Ev → Bool
  | Ev.acceptOk _ => true
  | _ => false

/-- Events that the accept phase can emit. -/
def isAcceptPhaseEv : Ev → Bool
  | Ev.logWaitingClient => true
  | Ev.acceptOk _ => true
  | Ev.probeRecv _ => true
  | _ => false

/-- Events that the serial open phase can emit. -/
def isOpenPhaseEv : Ev → Bool
  | Ev.serialOpenTry => true
  | Ev.serialOpenOk => true
  | Ev.serialCloseEv => true
  | Ev.logPermission => true
  | Ev.logWaitingSerial => true
  | _ => false

/-- Events that the writer run can emit. -/
def isWriterEv : Ev → Bool
  | Ev.recvCall _ => true
  | Ev.serialWriteEv _ => true
  | Ev.logErrorEv => true
  | Ev.logDebugEv => true
  | Ev.stopCallEv => true
  | Ev.joinEv => true
  | _ => false

/-- The ordering asserted by the specification for the supervisor: a serial
open succeeds before the first client is accepted. -/
def serialOpenPrecedesAccept (tr : List Ev) : Bool :=
  decide (Ev.serialOpenOk ∈ tr.takeWhile fun e => !(isAcceptOk e))

/-- Chunks passed to the serial device by serial.write events of a trace. -/
def serialChunks : List Ev → List (List Nat)
  | [] => []
  | Ev.serialWriteEv bs :: t => bs :: serialChunks t
  | _ :: t => serialChunks t

/-- Data chunks carried by a socket stream. -/
def dataChunks : List SockEv → List (List Nat)
  | [] => []
  | SockEv.chunk bs :: t => bs :: dataChunks t
  | _ :: t => dataChunks t

/-- All bytes carried by a socket stream, in order. -/
def dataFlat (s : List SockEv) : List Nat := (dataChunks s).flatten

/-- Phase of one thread executing Redirector.write (lines 106-111): before
acquiring the write lock, holding it having emitted k bytes of its message, or
finished with the lock released. -/
inductive TPhase where
  | idle
  | holding (k : Nat)
  | finished
  deriving DecidableEq, Repr

/-- Whether the thread currently holds the write lock. -/
def TPhase.isHolding : TPhase → Bool
  | TPhase.holding _ => true
  | _ => false

/-- Shared state of two threads writing to the client socket through
Redirector.write: each thread phase and the byte stream sent so far. -/
structure WState where
  t0 : TPhase
  t1 : TPhase
  out : List Nat
  deriving DecidableEq, Repr

/-- Small-step interleaving semantics of two threads each executing
Redirector.write (lines 106-111) with messages d0 and d1: acquire the single
write lock (possible only when no thread holds it), send the bytes of the
message one at a time (socket.sendall may be preempted at byte granularity),
then release the lock. -/
inductive WriteStep (d0 d1 : List Nat) : WState → WState → Prop where
  | acquire0 (t1 : TPhase) (out : List Nat) (h : t1.isHolding = false) :
      WriteStep d0 d1 ⟨TPhase.idle, t1, out⟩ ⟨TPhase.holding 0, t1, out⟩
  | emit0 (t1 : TPhase) (out : List Nat) (k : Nat) (h : k < d0.length) :
      WriteStep d0 d1 ⟨TPhase.holding k, t1, out⟩
        ⟨TPhase.holding (k + 1), t1, out ++ [d0.get ⟨k, h⟩]⟩
  | release0 (t1 : TPhase) (out : List Nat) :
      WriteStep d0 d1 ⟨TPhase.holding d0.length, t1, out⟩ ⟨TPhase.finished, t1, out⟩
  | acquire1 (t0 : TPhase) (out : List Nat) (h : t0.isHolding = false) :
      WriteStep d0 d1 ⟨t0, TPhase.idle, out⟩ ⟨t0, TPhase.holding 0, out⟩
  | emit1 (t0 : TPhase) (out : List Nat) (k : Nat) (h : k < d1.length) :
      WriteStep d0 d1 ⟨t0, TPhase.holding k, out⟩
        ⟨t0, TPhase.holding (k + 1), out ++ [d1.get ⟨k, h⟩]⟩
  | release1 (t0 : TPhase) (out : List Nat) :
      WriteStep d0 d1 ⟨t0, TPhase.holding d1.length, out⟩ ⟨t0, TPhase.finished, out⟩

/-- Initial state: neither thread has started, nothing sent. -/
def writeInit : WState := ⟨TPhase.idle, TPhase.idle, []⟩

/-- Invariant of the two-writer system: the sent stream is always a
whole-message concatenation with at most the lock holder's message partially
emitted, and the lock is never held by both threads. -/
def WInv (d0 d1 : List Nat) (s : WState) : Prop :=
  match s.t0, s.t1 with
  | TPhase.idle, TPhase.idle => s.out = []
  | TPhase.holding k, TPhase.idle => s.out = d0.take k
  | TPhase.idle, TPhase.holding k => s.out = d1.take k
  | TPhase.finished, TPhase.idle => s.out = d0
  | TPhase.idle, TPhase.finished => s.out = d1
  | TPhase.holding k, TPhase.finished => s.out = d1 ++ d0.take k
  | TPhase.finished, TPhase.holding k => s.out = d0 ++ d1.take k
  | TPhase.finished, TPhase.finished => s.out = d0 ++ d1 ∨ s.out = d1 ++ d0
  | TPhase.holding _, TPhase.holding _ => False

/-- Python logging level NOTSET. -/
def NOTSET : Nat := 0

/-- Python logging level DEBUG. -/
def DEBUG : Nat := 10

/-- Python logging level INFO. -/
def INFO : Nat := 20

/-- Python logging level WARNING. -/
def WARNING : Nat := 30

/-- Clamping of the verbosity count (lines 199-200). -/
def clampVerbosity (v : Nat) : Nat := if v > 3 then 3 else v

/-- The level tuple of lines 201-206. -/
def levels : List Nat := [NOTSET, WARNING, INFO, DEBUG]

/-- Level assigned to the rfc2217 logger (line 208). -/
def rfc2217LoggerLevel (v : Nat) : Nat := levels.getD (clampVerbosity v) NOTSET

/-- Level assigned to the redirector logger (line 209). -/
def redirectorLoggerLevel (v : Nat) : Nat := levels.getD (clampVerbosity v) NOTSET

/-- Root logger level set by logging.basicConfig(level=logging.INFO) at line
207. -/
def rootLoggerLevel : Nat := INFO

/-- Effective level of the rfc2217 and redirector loggers: Python logging
resolves a logger whose own level is NOTSET by delegating to its ancestors,
here the root logger. -/
def effectiveLevel (v : Nat) : Nat :=
  if rfc2217LoggerLevel v = NOTSET then rootLoggerLevel else rfc2217LoggerLevel v

/-- Whether a record of the given level is emitted at the given verbosity. -/
def logsAt (v msgLevel : Nat) : Bool := decide (effectiveLevel v ≤ msgLevel)

/-- Every recv call of the event uses the fixed 1024-byte chunk size. -/
def recvOk : Ev → Bool
  | Ev.recvCall n => decide (n = 1024)
  | _ => true

/-- Concrete serial state for sample runs. -/
def exSer : SerialPort := ⟨false, false, false, 7⟩

/-- Concrete accept outcomes: one permitted client that has already sent a
byte and then closes. -/
def exAccepts : List AcceptRes :=
  [AcceptRes.conn "127.0.0.1" [SockEv.chunk [5], SockEv.closed]]

/-- Concrete main loop run with a permitted client. -/
def exRun : Option (List Ev × SerialPort × LoopExit) :=
  loopBody exSer exAccepts [OpenRes.ok] []

/-- Trace of the concrete permitted run. -/
def exTrace : List Ev := (exRun.map fun t => t.1).getD []

/-- Concrete accept outcomes with a host absent from the whitelist. -/
def exAcceptsD : List AcceptRes := [AcceptRes.conn "10.0.0.9" [SockEv.chunk [5]]]

/-- Concrete main loop run with a denied client. -/
def exRunD : Option (List Ev × SerialPort × LoopExit) :=
  loopBody exSer exAcceptsD [] []

/-- Trace of the concrete denied run. -/
def exTraceD : List Ev := (exRunD.map fun t => t.1).getD []

/-- Concrete reader observations: one serial chunk copied, then a
SerialException raised by the serial read. -/
def exReaderIns : List RIn := [RIn.readData [1] none, RIn.readExn PyExn.serialException]

/-- Trace of the concrete reader run. -/
def exReaderTr : List Ev := [Ev.sockWriteEv [1], Ev.logErrorEv]

/-- Concrete writer observations: one data chunk, then the peer closes. -/
def exWIns : List WIn := [WIn.recvEv (SockEv.chunk [3]) none, WIn.recvEv SockEv.closed none]

/-- Trace of the concrete writer run. -/
def exWTr : List Ev :=
  [Ev.recvCall 1024, Ev.serialWriteEv [3], Ev.recvCall 1024, Ev.logDebugEv,
   Ev.stopCallEv, Ev.joinEv, Ev.joinEv]

theorem all_takeWhile {α : Type} (p q : α → Bool) (l : List α) (h : l.all p = true) :
    (l.takeWhile q).all p = true := by
  induction l with
  | nil => simp
  | cons a t ih =>
    simp only [List.all_cons, Bool.and_eq_true] at h
    rw [List.takeWhile_cons]
    by_cases hq : q a = true
    · simp [hq, h.1, ih h.2]
    · simp [hq]

theorem takeWhile_append_stops {α : Type} (q : α → Bool) (l₁ l₂ : List α) (a : α)
    (ha : a ∈ l₁) (hqa : q a = false) :
    (l₁ ++ l₂).takeWhile q = l₁.takeWhile q := by
  induction l₁ with
  | nil => cases ha
  | cons b t ih =>
    rw [List.cons_append, List.takeWhile_cons, List.takeWhile_cons]
    by_cases hb : q b = true
    · rcases List.mem_cons.mp ha with rfl | hmem
      · rw [hb] at hqa; cases hqa
      · simp [hb, ih hmem]
    · simp [hb]

theorem getLast_after_teardown (X : List Ev) (c : Nat) :
    (X ++ teardownTrace c).getLast? = some Ev.serialCloseEv := by
  have : X ++ teardownTrace c =
      (X ++ [Ev.logDisconnected, Ev.stopCallEv, Ev.clientClose, Ev.setDtr false,
             Ev.setRts false, Ev.applySettingsEv c]) ++ [Ev.serialCloseEv] := by
    simp [teardownTrace]
  rw [this, List.getLast?_concat]

theorem count_eq_zero_of_all {α : Type} [BEq α] [LawfulBEq α] (p : α → Bool)
    (l : List α) (a : α) (h : l.all p = true) (hpa : p a = false) :
    l.count a = 0 := by
  rw [List.count_eq_zero]
  intro hmem
  rw [List.all_eq_true.mp h a hmem] at hpa
  cases hpa

theorem acceptPhase_spec (accepts : List AcceptRes) (trA : List Ev) (h : String)
    (s' : List SockEv) (hap : acceptPhase accepts = some (trA, h, s')) :
    trA.all isAcceptPhaseEv = true
    ∧ ∃ pre, trA = pre ++ [Ev.acceptOk h, Ev.probeRecv true] := by
  induction accepts generalizing trA with
  | nil => simp [acceptPhase] at hap
  | cons a rest ih =>
    cases a with
    | timeout =>
      simp only [acceptPhase] at hap
      cases hr : acceptPhase rest with
      | none => rw [hr] at hap; cases hap
      | some v =>
        obtain ⟨tr0, h0, s0⟩ := v
        rw [hr] at hap
        simp only [Option.some.injEq, Prod.mk.injEq] at hap
        obtain ⟨htr, hh, hs⟩ := hap
        subst htr; subst hh; subst hs
        obtain ⟨hall, pre, hpre⟩ := ih tr0 hr
        refine ⟨by simp [isAcceptPhaseEv, hall], Ev.logWaitingClient :: pre, by simp [hpre]⟩
    | conn hst s =>
      simp only [acceptPhase] at hap
      cases hp : is_socket_connected (some s) with
      | none => rw [hp] at hap; cases hap
      | some v =>
        obtain ⟨b, s1⟩ := v
        rw [hp] at hap
        cases b with
        | true =>
          simp only [Option.some.injEq, Prod.mk.injEq] at hap
          obtain ⟨htr, hh, hs⟩ := hap
          subst htr; subst hh
          exact ⟨by simp [isAcceptPhaseEv], [], rfl⟩
        | false =>
          cases hr : acceptPhase rest with
          | none => rw [hr] at hap; cases hap
          | some w =>
            obtain ⟨tr0, h0, s0⟩ := w
            rw [hr] at hap
            simp only [Option.some.injEq, Prod.mk.injEq] at hap
            obtain ⟨htr, hh, hs⟩ := hap
            subst htr; subst hh; subst hs
            obtain ⟨hall, pre, hpre⟩ := ih tr0 hr
            exact ⟨by simp [isAcceptPhaseEv, hall],
              Ev.acceptOk hst :: Ev.probeRecv false :: pre, by simp [hpre]⟩

theorem openPhase_spec (rs : List OpenRes) (ser ser1 : SerialPort) (trO : List Ev)
    (hop : openPhase ser rs = some (trO, ser1)) :
    trO.all isOpenPhaseEv = true ∧ ser1.isOpen = true ∧ ser1.cfg = ser.cfg
    ∧ ser1.dtr = ser.dtr ∧ ser1.rts = ser.rts := by
  induction rs generalizing ser trO with
  | nil =>
    simp only [openPhase] at hop
    by_cases hso : ser.isOpen = true
    · simp only [hso, if_true, Option.some.injEq, Prod.mk.injEq] at hop
      obtain ⟨htr, hs⟩ := hop
      subst htr; subst hs
      simp [hso]
    · simp [hso] at hop
  | cons r rest ih =>
    simp only [openPhase] at hop
    by_cases hso : ser.isOpen = true
    · simp only [hso, if_true, Option.some.injEq, Prod.mk.injEq] at hop
      obtain ⟨htr, hs⟩ := hop
      subst htr; subst hs
      simp [hso]
    · rw [if_neg hso] at hop
      cases r with
      | ok =>
        simp only [Option.some.injEq, Prod.mk.injEq] at hop
        obtain ⟨htr, hs⟩ := hop
        subst htr; subst hs
        simp [isOpenPhaseEv]
      | errAlreadyOpen =>
        cases hr : openPhase { ser with isOpen := false } rest with
        | none => rw [hr] at hop; cases hop
        | some v =>
          obtain ⟨tr0, s0⟩ := v
          rw [hr] at hop
          simp only [Option.some.injEq, Prod.mk.injEq] at hop
          obtain ⟨htr, hs⟩ := hop
          subst htr; subst hs
          obtain ⟨hall, h1, h2, h3, h4⟩ := ih { ser with isOpen := false } tr0 hr
          exact ⟨by simp [isOpenPhaseEv, hall], h1, h2, h3, h4⟩
      | errPermission =>
        cases hr : openPhase ser rest with
        | none => rw [hr] at hop; cases hop
        | some v =>
          obtain ⟨tr0, s0⟩ := v
          rw [hr] at hop
          simp only [Option.some.injEq, Prod.mk.injEq] at hop
          obtain ⟨htr, hs⟩ := hop
          subst htr; subst hs
          obtain ⟨hall, h1, h2, h3, h4⟩ := ih ser tr0 hr
          exact ⟨by simp [isOpenPhaseEv, hall], h1, h2, h3, h4⟩
      | errOther =>
        cases hr : openPhase ser rest with
        | none => rw [hr] at hop; cases hop
        | some v =>
          obtain ⟨tr0, s0⟩ := v
          rw [hr] at hop
          simp only [Option.some.injEq, Prod.mk.injEq] at hop
          obtain ⟨htr, hs⟩ := hop
          subst htr; subst hs
          obtain ⟨hall, h1, h2, h3, h4⟩ := ih ser tr0 hr
          exact ⟨by simp [isOpenPhaseEv, hall], h1, h2, h3, h4⟩

theorem all_imp {α : Type} (p q : α → Bool) (l : List α) (h : l.all p = true)
    (himp : ∀ x, p x = true → q x = true) : l.all q = true := by
  rw [List.all_eq_true] at h ⊢
  exact fun x hx => himp x (h x hx)

theorem writerLoop_all (ins : List WIn) (tr : List Ev) (a : Bool) (esc : Option PyExn)
    (h : writerLoop ins = some (tr, a, esc)) :
    tr.all (fun e => isWriterEv e && recvOk e) = true := by
  induction ins generalizing tr a esc with
  | nil => simp [writerLoop] at h
  | cons w rest ih =>
    cases w with
    | flagFalse =>
      simp only [writerLoop, Option.some.injEq, Prod.mk.injEq] at h
      obtain ⟨htr, _, _⟩ := h
      subst htr; simp
    | recvEv ev sres =>
      cases ev with
      | closed =>
        simp only [writerLoop, Option.some.injEq, Prod.mk.injEq] at h
        obtain ⟨htr, _, _⟩ := h
        subst htr; simp [isWriterEv, recvOk]
      | wouldBlock =>
        simp only [writerLoop] at h
        cases hr : writerLoop rest with
        | none => rw [hr] at h; cases h
        | some v =>
          obtain ⟨tr0, a0, esc0⟩ := v
          rw [hr] at h
          simp only [Option.some.injEq, Prod.mk.injEq] at h
          obtain ⟨htr, _, _⟩ := h
          subst htr
          simp only [List.all_cons, Bool.and_eq_true]
          exact ⟨by simp [isWriterEv, recvOk], ih tr0 a0 esc0 hr⟩
      | sockErr =>
        simp only [writerLoop, Option.some.injEq, Prod.mk.injEq] at h
        obtain ⟨htr, _, _⟩ := h
        subst htr; simp [isWriterEv, recvOk]
      | chunk bs =>
        cases sres with
        | none =>
          simp only [writerLoop] at h
          by_cases hbs : bs.isEmpty = true
          · simp only [hbs, if_true, Option.some.injEq, Prod.mk.injEq] at h
            obtain ⟨htr, _, _⟩ := h
            subst htr; simp [isWriterEv, recvOk]
          · rw [if_neg hbs] at h
            cases hr : writerLoop rest with
            | none => rw [hr] at h; cases h
            | some v =>
              obtain ⟨tr0, a0, esc0⟩ := v
              rw [hr] at h
              simp only [Option.some.injEq, Prod.mk.injEq] at h
              obtain ⟨htr, _, _⟩ := h
              subst htr
              simp only [List.all_cons, Bool.and_eq_true]
              exact ⟨by simp [isWriterEv, recvOk], by simp [isWriterEv, recvOk],
                ih tr0 a0 esc0 hr⟩
        | some e =>
          simp only [writerLoop] at h
          by_cases hbs : bs.isEmpty = true
          · simp only [hbs, if_true, Option.some.injEq, Prod.mk.injEq] at h
            obtain ⟨htr, _, _⟩ := h
            subst htr; simp [isWriterEv, recvOk]
          · rw [if_neg hbs] at h
            by_cases hb : e.isBlockingIOError = true
            · rw [if_pos hb] at h
              cases hr : writerLoop rest with
              | none => rw [hr] at h; cases h
              | some v =>
                obtain ⟨tr0, a0, esc0⟩ := v
                rw [hr] at h
                simp only [Option.some.injEq, Prod.mk.injEq] at h
                obtain ⟨htr, _, _⟩ := h
                subst htr
                simp only [List.all_cons, Bool.and_eq_true]
                exact ⟨by simp [isWriterEv, recvOk], by simp [isWriterEv, recvOk],
                  ih tr0 a0 esc0 hr⟩
            · rw [if_neg hb] at h
              by_cases hc : e.caughtBySocketError = true
              · simp only [hc, if_true, Option.some.injEq, Prod.mk.injEq] at h
                obtain ⟨htr, _, _⟩ := h
                subst htr; simp [isWriterEv, recvOk]
              · simp only [hc, if_false, Option.some.injEq, Prod.mk.injEq,
                  Bool.false_eq_true] at h
                obtain ⟨htr, _, _⟩ := h
                subst htr; simp [isWriterEv, recvOk]

theorem writerRun_all (ins : List WIn) (tr : List Ev) (r : RState) (esc : Option PyExn)
    (h : writerRun ins = some (tr, r, esc)) :
    tr.all (fun e => isWriterEv e && recvOk e) = true := by
  simp only [writerRun] at h
  cases hl : writerLoop ins with
  | none => rw [hl] at h; cases h
  | some v =>
    obtain ⟨tr0, a0, esc0⟩ := v
    rw [hl] at h
    have h0 := writerLoop_all ins tr0 a0 esc0 hl
    cases esc0 with
    | some e =>
      simp only [Option.some.injEq, Prod.mk.injEq] at h
      obtain ⟨htr, _, _⟩ := h
      subst htr; exact h0
    | none =>
      simp only [Option.some.injEq, Prod.mk.injEq] at h
      obtain ⟨htr, _, _⟩ := h
      subst htr
      cases a0 <;> simp_all [rstop, isWriterEv, recvOk]

theorem writerLoop_os (ins : List WIn) (tr : List Ev) (a : Bool) (esc : Option PyExn)
    (hos : ins.all winOS = true) (h : writerLoop ins = some (tr, a, esc)) :
    esc = none := by
  induction ins generalizing tr a esc with
  | nil => simp [writerLoop] at h
  | cons w rest ih =>
    simp only [List.all_cons, Bool.and_eq_true] at hos
    cases w with
    | flagFalse =>
      simp only [writerLoop, Option.some.injEq, Prod.mk.injEq] at h
      exact h.2.2.symm
    | recvEv ev sres =>
      cases ev with
      | closed =>
        simp only [writerLoop, Option.some.injEq, Prod.mk.injEq] at h
        exact h.2.2.symm
      | wouldBlock =>
        simp only [writerLoop] at h
        cases hr : writerLoop rest with
        | none => rw [hr] at h; cases h
        | some v =>
          obtain ⟨tr0, a0, esc0⟩ := v
          rw [hr] at h
          simp only [Option.some.injEq, Prod.mk.injEq] at h
          obtain ⟨_, _, hesc⟩ := h
          subst hesc
          exact ih tr0 a0 esc0 hos.2 hr
      | sockErr =>
        simp only [writerLoop, Option.some.injEq, Prod.mk.injEq] at h
        exact h.2.2.symm
      | chunk bs =>
        cases sres with
        | none =>
          simp only [writerLoop] at h
          by_cases hbs : bs.isEmpty = true
          · simp only [hbs, if_true, Option.some.injEq, Prod.mk.injEq] at h
            exact h.2.2.symm
          · rw [if_neg hbs] at h
            cases hr : writerLoop rest with
            | none => rw [hr] at h; cases h
            | some v =>
              obtain ⟨tr0, a0, esc0⟩ := v
              rw [hr] at h
              simp only [Option.some.injEq, Prod.mk.injEq] at h
              obtain ⟨_, _, hesc⟩ := h
              subst hesc
              exact ih tr0 a0 esc0 hos.2 hr
        | some e =>
          simp only [writerLoop] at h
          by_cases hbs : bs.isEmpty = true
          · simp only [hbs, if_true, Option.some.injEq, Prod.mk.injEq] at h
            exact h.2.2.symm
          · rw [if_neg hbs] at h
            by_cases hb : e.isBlockingIOError = true
            · rw [if_pos hb] at h
              cases hr : writerLoop rest with
              | none => rw [hr] at h; cases h
              | some v =>
                obtain ⟨tr0, a0, esc0⟩ := v
                rw [hr] at h
                simp only [Option.some.injEq, Prod.mk.injEq] at h
                obtain ⟨_, _, hesc⟩ := h
                subst hesc
                exact ih tr0 a0 esc0 hos.2 hr
            · rw [if_neg hb] at h
              have hcaught : e.caughtBySocketError = true := by
                have : winOS (WIn.recvEv (SockEv.chunk bs) (some e)) = true := hos.1
                simpa [winOS, PyExn.caughtBySocketError] using this
              simp only [hcaught, if_true, Option.some.injEq, Prod.mk.injEq] at h
              exact h.2.2.symm

theorem writerRun_os (ins : List WIn) (tr : List Ev) (r : RState) (esc : Option PyExn)
    (hos : ins.all winOS = true) (h : writerRun ins = some (tr, r, esc)) :
    esc = none ∧ r = ⟨false⟩ := by
  simp only [writerRun] at h
  cases hl : writerLoop ins with
  | none => rw [hl] at h; cases h
  | some v =>
    obtain ⟨tr0, a0, esc0⟩ := v
    rw [hl] at h
    have h0 := writerLoop_os ins tr0 a0 esc0 hos hl
    subst h0
    simp only [Option.some.injEq, Prod.mk.injEq] at h
    obtain ⟨_, hr, hesc⟩ := h
    refine ⟨hesc.symm, ?_⟩
    cases a0 <;> simp [rstop] at hr <;> exact hr.symm

theorem readerRun_os (rins : List RIn) (tr : List Ev) (r : RState) (esc : Option PyExn)
    (hos : rins.all rinOS = true) (h : readerRun rins = some (tr, r, esc)) :
    esc = none ∧ r = ⟨false⟩ := by
  induction rins generalizing tr r esc with
  | nil => simp [readerRun] at h
  | cons w rest ih =>
    simp only [List.all_cons, Bool.and_eq_true] at hos
    cases w with
    | flagFalse =>
      simp only [readerRun, Option.some.injEq, Prod.mk.injEq] at h
      exact ⟨h.2.2.symm, h.2.1.symm⟩
    | readExn e =>
      have hcaught : e.caughtBySocketError = true := by
        have : rinOS (RIn.readExn e) = true := hos.1
        simpa [rinOS, PyExn.caughtBySocketError] using this
      simp only [readerRun, hcaught, if_true, Option.some.injEq, Prod.mk.injEq] at h
      exact ⟨h.2.2.symm, h.2.1.symm⟩
    | readData bs wres =>
      simp only [readerRun] at h
      by_cases hbs : bs.isEmpty = true
      · rw [if_pos hbs] at h
        exact ih tr r esc hos.2 h
      · rw [if_neg hbs] at h
        cases wres with
        | none =>
          cases hr : readerRun rest with
          | none => rw [hr] at h; cases h
          | some v =>
            obtain ⟨tr0, r0, esc0⟩ := v
            rw [hr] at h
            simp only [Option.some.injEq, Prod.mk.injEq] at h
            obtain ⟨_, hrr, hesc⟩ := h
            subst hrr; subst hesc
            exact ih tr0 r0 esc0 hos.2 hr
        | some e =>
          have hcaught : e.caughtBySocketError = true := by
            have : rinOS (RIn.readData bs (some e)) = true := hos.1
            simpa [rinOS, PyExn.caughtBySocketError] using this
          simp only [hcaught, if_true, Option.some.injEq, Prod.mk.injEq] at h
          exact ⟨h.2.2.symm, h.2.1.symm⟩

theorem serialChunks_append (l₁ l₂ : List Ev) :
    serialChunks (l₁ ++ l₂) = serialChunks l₁ ++ serialChunks l₂ := by
  induction l₁ with
  | nil => simp [serialChunks]
  | cons e t ih => cases e <;> simp [serialChunks, ih]

theorem writerLoop_chunks (s : List SockEv) (sres : List (Option PyExn))
    (tr : List Ev) (a : Bool) (esc : Option PyExn)
    (h : writerLoop (mkWIns s sres) = some (tr, a, esc)) :
    ∃ k, serialChunks tr = (dataChunks s).take k := by
  induction s generalizing sres tr a esc with
  | nil => simp [mkWIns, writerLoop] at h
  | cons e t ih =>
    simp only [mkWIns] at h
    cases e with
    | closed =>
      simp only [writerLoop, Option.some.injEq, Prod.mk.injEq] at h
      obtain ⟨htr, _, _⟩ := h
      subst htr
      exact ⟨0, by simp [serialChunks]⟩
    | wouldBlock =>
      simp only [writerLoop] at h
      cases hr : writerLoop (mkWIns t sres.tail) with
      | none => rw [hr] at h; cases h
      | some v =>
        obtain ⟨tr0, a0, esc0⟩ := v
        rw [hr] at h
        simp only [Option.some.injEq, Prod.mk.injEq] at h
        obtain ⟨htr, _, _⟩ := h
        subst htr
        obtain ⟨k, hk⟩ := ih sres.tail tr0 a0 esc0 hr
        exact ⟨k, by simp [serialChunks, dataChunks, hk]⟩
    | sockErr =>
      simp only [writerLoop, Option.some.injEq, Prod.mk.injEq] at h
      obtain ⟨htr, _, _⟩ := h
      subst htr
      exact ⟨0, by simp [serialChunks]⟩
    | chunk bs =>
      cases hsr : sres.headD none with
      | none =>
        rw [hsr] at h
        simp only [writerLoop] at h
        by_cases hbs : bs.isEmpty = true
        · simp only [hbs, if_true, Option.some.injEq, Prod.mk.injEq] at h
          obtain ⟨htr, _, _⟩ := h
          subst htr
          exact ⟨0, by simp [serialChunks]⟩
        · rw [if_neg hbs] at h
          cases hr : writerLoop (mkWIns t sres.tail) with
          | none => rw [hr] at h; cases h
          | some v =>
            obtain ⟨tr0, a0, esc0⟩ := v
            rw [hr] at h
            simp only [Option.some.injEq, Prod.mk.injEq] at h
            obtain ⟨htr, _, _⟩ := h
            subst htr
            obtain ⟨k, hk⟩ := ih sres.tail tr0 a0 esc0 hr
            exact ⟨k + 1, by simp [serialChunks, dataChunks, hk]⟩
      | some e =>
        rw [hsr] at h
        simp only [writerLoop] at h
        by_cases hbs : bs.isEmpty = true
        · simp only [hbs, if_true, Option.some.injEq, Prod.mk.injEq] at h
          obtain ⟨htr, _, _⟩ := h
          subst htr
          exact ⟨0, by simp [serialChunks]⟩
        · rw [if_neg hbs] at h
          by_cases hb : e.isBlockingIOError = true
          · rw [if_pos hb] at h
            cases hr : writerLoop (mkWIns t sres.tail) with
            | none => rw [hr] at h; cases h
            | some v =>
              obtain ⟨tr0, a0, esc0⟩ := v
              rw [hr] at h
              simp only [Option.some.injEq, Prod.mk.injEq] at h
              obtain ⟨htr, _, _⟩ := h
              subst htr
              obtain ⟨k, hk⟩ := ih sres.tail tr0 a0 esc0 hr
              exact ⟨k + 1, by simp [serialChunks, dataChunks, hk]⟩
          · rw [if_neg hb] at h
            by_cases hc : e.caughtBySocketError = true
            · simp only [hc, if_true, Option.some.injEq, Prod.mk.injEq] at h
              obtain ⟨htr, _, _⟩ := h
              subst htr
              exact ⟨1, by simp [serialChunks, dataChunks]⟩
            · simp only [hc, if_false, Option.some.injEq, Prod.mk.injEq,
                Bool.false_eq_true] at h
              obtain ⟨htr, _, _⟩ := h
              subst htr
              exact ⟨1, by simp [serialChunks, dataChunks]⟩

theorem writerRun_chunks (s : List SockEv) (sres : List (Option PyExn))
    (tr : List Ev) (r : RState) (esc : Option PyExn)
    (h : writerRun (mkWIns s sres) = some (tr, r, esc)) :
    ∃ k, serialChunks tr = (dataChunks s).take k := by
  simp only [writerRun] at h
  cases hl : writerLoop (mkWIns s sres) with
  | none => rw [hl] at h; cases h
  | some v =>
    obtain ⟨tr0, a0, esc0⟩ := v
    rw [hl] at h
    obtain ⟨k, hk⟩ := writerLoop_chunks s sres tr0 a0 esc0 hl
    cases esc0 with
    | some e =>
      simp only [Option.some.injEq, Prod.mk.injEq] at h
      obtain ⟨htr, _, _⟩ := h
      subst htr
      exact ⟨k, hk⟩
    | none =>
      simp only [Option.some.injEq, Prod.mk.injEq] at h
      obtain ⟨htr, _, _⟩ := h
      subst htr
      cases a0 <;> exact ⟨k, by simp [rstop, serialChunks_append, serialChunks, hk]⟩

theorem winv_init (d0 d1 : List Nat) : WInv d0 d1 writeInit := by
  simp [WInv, writeInit]

theorem winv_step (d0 d1 : List Nat) (s s' : WState) (hs : WInv d0 d1 s)
    (st : WriteStep d0 d1 s s') : WInv d0 d1 s' := by
  cases st with
  | acquire0 t1 out h =>
    cases t1 with
    | idle => simpa [WInv] using hs
    | holding k => simp [TPhase.isHolding] at h
    | finished => simpa [WInv] using hs
  | emit0 t1 out k hk =>
    cases t1 with
    | idle =>
      simp only [WInv] at hs ⊢
      rw [hs, List.take_succ]
      simp [List.getElem?_eq_getElem hk, List.get_eq_getElem]
    | holding j => simp [WInv] at hs
    | finished =>
      simp only [WInv] at hs ⊢
      rw [hs, List.take_succ]
      simp [List.getElem?_eq_getElem hk, List.get_eq_getElem]
  | release0 t1 out =>
    cases t1 with
    | idle =>
      simp only [WInv] at hs ⊢
      rw [hs, List.take_length]
    | holding j => simp [WInv] at hs
    | finished =>
      simp only [WInv] at hs ⊢
      rw [hs, List.take_length]
      exact Or.inr rfl
  | acquire1 t0 out h =>
    cases t0 with
    | idle => simpa [WInv] using hs
    | holding k => simp [TPhase.isHolding] at h
    | finished => simpa [WInv] using hs
  | emit1 t0 out k hk =>
    cases t0 with
    | idle =>
      simp only [WInv] at hs ⊢
      rw [hs, List.take_succ]
      simp [List.getElem?_eq_getElem hk, List.get_eq_getElem]
    | holding j => simp [WInv] at hs
    | finished =>
      simp only [WInv] at hs ⊢
      rw [hs, List.take_succ]
      simp [List.getElem?_eq_getElem hk, List.get_eq_getElem]
  | release1 t0 out =>
    cases t0 with
    | idle =>
      simp only [WInv] at hs ⊢
      rw [hs, List.take_length]
    | holding j => simp [WInv] at hs
    | finished =>
      simp only [WInv] at hs ⊢
      rw [hs, List.take_length]
      exact Or.inl rfl

theorem winv_reach (d0 d1 : List Nat) (s : WState)
    (h : Relation.ReflTransGen (WriteStep d0 d1) writeInit s) : WInv d0 d1 s := by
  induction h with
  | refl => exact winv_init d0 d1
  | tail _ hstep ih => exact winv_step d0 d1 _ _ ih hstep

/-- C6: calling stop on a Redirector whose liveness flag is already false
returns immediately without joins and without changing any state; calling it
while the flag is true clears the flag and joins the reader and status-poll
threads; a second stop after a stop does nothing. -/
theorem stopIdempotent (r : RState) :
    (r.alive = false → rstop r = (r, []))
    ∧ (r.alive = true → rstop r = (⟨false⟩, [JoinEv.joinRead, JoinEv.joinPoll]))
    ∧ rstop (rstop r).1 = ((rstop r).1, []) := by
  obtain ⟨a⟩ := r
  cases a <;> simp [rstop]

theorem stopIdempotent_witness : rstop ⟨false⟩ = (⟨false⟩, []) :=
  (stopIdempotent ⟨false⟩).1 rfl

/-- C7: within one Redirector instance the liveness flag is a one-shot latch:
only the shortcircuit operation sets it true, and once false it stays false
under any sequence of the other operations. -/
theorem aliveOneShotLatch (o : ROp) (r : RState) (ops : List ROp) :
    ((applyROp o r).alive = true → o = ROp.shortcircuitStart ∨ r.alive = true)
    ∧ ((∀ x ∈ ops, x ≠ ROp.shortcircuitStart) → r.alive = false →
        (ops.foldl (fun s x => applyROp x s) r).alive = false) := by
  constructor
  · intro h
    cases o with
    | shortcircuitStart => exact Or.inl rfl
    | readerExitClear => simp [applyROp] at h
    | stopOp =>
      obtain ⟨a⟩ := r
      cases a
      · simp [applyROp, rstop] at h
      · exact Or.inr rfl
    | writerStop =>
      obtain ⟨a⟩ := r
      cases a
      · simp [applyROp, rstop] at h
      · exact Or.inr rfl
    | pollerCheck => exact Or.inr h
  · induction ops generalizing r with
    | nil => intro _ hfalse; simpa using hfalse
    | cons x rest ih =>
      intro hns hfalse
      have hx := hns x (List.mem_cons_self x rest)
      have hstep : (applyROp x r).alive = false := by
        obtain ⟨a⟩ := r
        cases a
        · cases x with
          | shortcircuitStart => exact absurd rfl hx
          | readerExitClear => rfl
          | stopOp => simp [applyROp, rstop]
          | writerStop => simp [applyROp, rstop]
          | pollerCheck => exact hfalse
        · cases hfalse
      rw [List.foldl_cons]
      exact ih (applyROp x r) (fun y hy => hns y (List.mem_cons_of_mem x hy)) hstep

theorem aliveOneShotLatch_witness :
    (([ROp.stopOp, ROp.pollerCheck]).foldl (fun s x => applyROp x s) ⟨false⟩).alive
      = false :=
  (aliveOneShotLatch ROp.stopOp ⟨false⟩ [ROp.stopOp, ROp.pollerCheck]).2 (by decide) rfl

/-- C8: two concurrent writes through Redirector.write never interleave at the
byte level: the lock is never held by both threads, and once both writes have
finished the socket stream is one whole message followed by the other. -/
theorem writeLockAtomic (d0 d1 : List Nat) (s : WState)
    (h : Relation.ReflTransGen (WriteStep d0 d1) writeInit s) :
    (s.t0.isHolding = true → s.t1.isHolding = true → False)
    ∧ (s.t0 = TPhase.finished → s.t1 = TPhase.finished →
        s.out = d0 ++ d1 ∨ s.out = d1 ++ d0) := by
  have inv := winv_reach d0 d1 s h
  obtain ⟨t0, t1, out⟩ := s
  constructor
  · intro h0 h1
    cases t0 with
    | holding k =>
      cases t1 with
      | holding j => simp [WInv] at inv
      | idle => simp [TPhase.isHolding] at h1
      | finished => simp [TPhase.isHolding] at h1
    | idle => simp [TPhase.isHolding] at h0
    | finished => simp [TPhase.isHolding] at h0
  · intro h0 h1
    subst h0
    subst h1
    simpa [WInv] using inv

theorem writeLockAtomic_witness :
    (WState.mk TPhase.finished TPhase.finished [1, 2]).out = [1] ++ [2]
    ∨ (WState.mk TPhase.finished TPhase.finished [1, 2]).out = [2] ++ [1] := by
  have s1 : WriteStep [1] [2] ⟨TPhase.idle, TPhase.idle, []⟩
      ⟨TPhase.holding 0, TPhase.idle, []⟩ := WriteStep.acquire0 TPhase.idle [] rfl
  have s2 : WriteStep [1] [2] ⟨TPhase.holding 0, TPhase.idle, []⟩
      ⟨TPhase.holding 1, TPhase.idle, [1]⟩ := WriteStep.emit0 TPhase.idle [] 0 (by decide)
  have s3 : WriteStep [1] [2] ⟨TPhase.holding 1, TPhase.idle, [1]⟩
      ⟨TPhase.finished, TPhase.idle, [1]⟩ := WriteStep.release0 TPhase.idle [1]
  have s4 : WriteStep [1] [2] ⟨TPhase.finished, TPhase.idle, [1]⟩
      ⟨TPhase.finished, TPhase.holding 0, [1]⟩ := WriteStep.acquire1 TPhase.finished [1] rfl
  have s5 : WriteStep [1] [2] ⟨TPhase.finished, TPhase.holding 0, [1]⟩
      ⟨TPhase.finished, TPhase.holding 1, [1, 2]⟩ :=
    WriteStep.emit1 TPhase.finished [1] 0 (by decide)
  have s6 : WriteStep [1] [2] ⟨TPhase.finished, TPhase.holding 1, [1, 2]⟩
      ⟨TPhase.finished, TPhase.finished, [1, 2]⟩ := WriteStep.release1 TPhase.finished [1, 2]
  have hreach : Relation.ReflTransGen (WriteStep [1] [2]) writeInit
      ⟨TPhase.finished, TPhase.finished, [1, 2]⟩ :=
    Relation.ReflTransGen.head s1 (Relation.ReflTransGen.head s2
      (Relation.ReflTransGen.head s3 (Relation.ReflTransGen.head s4
        (Relation.ReflTransGen.head s5 (Relation.ReflTransGen.head s6
          Relation.ReflTransGen.refl)))))
  exact (writeLockAtomic [1] [2] _ hreach).2 rfl rfl

/-- C9 (amended): the verbosity count leaves the rfc2217 and redirector
loggers at NOTSET when it is 0 (so they inherit the root level INFO set by
basicConfig, not warnings-only), maps counts 1, 2, 3 to WARNING, INFO, DEBUG,
clamps any count above 3 to 3, and treats both loggers identically. -/
theorem verbosityMapping (v : Nat) :
    rfc2217LoggerLevel 0 = NOTSET
    ∧ effectiveLevel 0 = rootLoggerLevel
    ∧ rfc2217LoggerLevel 1 = WARNING
    ∧ rfc2217LoggerLevel 2 = INFO
    ∧ rfc2217LoggerLevel 3 = DEBUG
    ∧ (3 ≤ v → rfc2217LoggerLevel v = DEBUG)
    ∧ rfc2217LoggerLevel v = redirectorLoggerLevel v := by
  refine ⟨by decide, by decide, by decide, by decide, by decide, ?_, rfl⟩
  intro hv
  have hcl : clampVerbosity v = 3 := by
    unfold clampVerbosity
    by_cases h3 : v > 3
    · simp [h3]
    · have hv3 : v = 3 := by omega
      simp [hv3]
  simp only [rfc2217LoggerLevel, hcl]
  decide

/-- C9 counterexample: at verbosity count 0 the loggers are not set to
warnings-only; they are left at NOTSET, and INFO records are emitted through
the root logger configured at INFO. -/
theorem verbosityMapping_cex :
    rfc2217LoggerLevel 0 ≠ WARNING ∧ logsAt 0 INFO = true
    ∧ redirectorLoggerLevel 0 ≠ WARNING := by decide

theorem verbosityMapping_witness : rfc2217LoggerLevel 7 = DEBUG :=
  (verbosityMapping 7).2.2.2.2.2.1 (by decide)

/-- C4: when every failure raised inside the reader or writer activity is an
OSError (which covers socket errors and serial SerialExceptions alike, since
SerialException derives from IOError = OSError caught by the except
socket.error clauses), no exception escapes the activity and the liveness
flag is false when the activity exits. -/
theorem activityFailuresHandled :
    (∀ (rins : List RIn) (tr : List Ev) (r : RState) (esc : Option PyExn),
        rins.all rinOS = true → readerRun rins = some (tr, r, esc) →
        esc = none ∧ r.alive = false)
    ∧ (∀ (wins : List WIn) (tr : List Ev) (r : RState) (esc : Option PyExn),
        wins.all winOS = true → writerRun wins = some (tr, r, esc) →
        esc = none ∧ r.alive = false)
    ∧ PyExn.serialException.isOSError = true := by
  refine ⟨?_, ?_, rfl⟩
  · intro rins tr r esc hos h
    obtain ⟨hesc, hr⟩ := readerRun_os rins tr r esc hos h
    exact ⟨hesc, by rw [hr]⟩
  · intro wins tr r esc hos h
    obtain ⟨hesc, hr⟩ := writerRun_os wins tr r esc hos h
    exact ⟨hesc, by rw [hr]⟩

theorem activityFailuresHandled_witness :
    exReaderIns.all rinOS = true
    ∧ ((none : Option PyExn) = none ∧ (RState.mk false).alive = false) :=
  ⟨by decide,
   activityFailuresHandled.1 exReaderIns exReaderTr ⟨false⟩ none (by decide) (by decide)⟩

/-- C5: the writer loops only while the liveness flag is true, every recv
uses the fixed 1024-byte chunk size, an empty recv ends the loop gracefully,
a would-block recv is skipped and retried, a socket error ends the loop, and
every completed exit of the writer, including one caused by a SerialException
from the serial write, invokes stop. -/
theorem writerContract :
    (∀ rest : List WIn, writerLoop (WIn.flagFalse :: rest) = some ([], false, none))
    ∧ (∀ (wins : List WIn) (tr : List Ev) (r : RState) (esc : Option PyExn),
        writerRun wins = some (tr, r, esc) → tr.all recvOk = true)
    ∧ (∀ (sres : Option PyExn) (rest : List WIn),
        writerLoop (WIn.recvEv SockEv.closed sres :: rest) =
          some ([Ev.recvCall 1024], true, none))
    ∧ (∀ (sres : Option PyExn) (rest : List WIn),
        writerLoop (WIn.recvEv SockEv.wouldBlock sres :: rest) =
          (writerLoop rest).map fun x => (Ev.recvCall 1024 :: x.1, x.2))
    ∧ (∀ (sres : Option PyExn) (rest : List WIn),
        writerLoop (WIn.recvEv SockEv.sockErr sres :: rest) =
          some ([Ev.recvCall 1024, Ev.logErrorEv], true, none))
    ∧ (∀ (wins : List WIn) (tr : List Ev) (r : RState),
        writerRun wins = some (tr, r, none) → Ev.stopCallEv ∈ tr)
    ∧ (∀ (b : Nat) (bs : List Nat) (rest : List WIn),
        writerRun (WIn.recvEv (SockEv.chunk (b :: bs)) (some PyExn.serialException) :: rest)
          = some ([Ev.recvCall 1024, Ev.serialWriteEv (b :: bs), Ev.logErrorEv,
                   Ev.logDebugEv, Ev.stopCallEv, Ev.joinEv, Ev.joinEv], ⟨false⟩, none)) := by
  refine ⟨fun rest => rfl, ?_, fun sres rest => rfl, ?_, fun sres rest => rfl, ?_, ?_⟩
  · intro wins tr r esc h
    exact all_imp _ recvOk tr (writerRun_all wins tr r esc h)
      (fun x hx => by simp only [Bool.and_eq_true] at hx; exact hx.2)
  · intro sres rest
    cases hr : writerLoop rest with
    | none => simp [writerLoop, hr]
    | some v =>
      obtain ⟨tr0, a0, esc0⟩ := v
      simp [writerLoop, hr]
  · intro wins tr r h
    simp only [writerRun] at h
    cases hl : writerLoop wins with
    | none => rw [hl] at h; cases h
    | some v =>
      obtain ⟨tr0, a0, esc0⟩ := v
      rw [hl] at h
      cases esc0 with
      | some e =>
        simp only [Option.some.injEq, Prod.mk.injEq] at h
        obtain ⟨_, _, hesc⟩ := h
        cases hesc
      | none =>
        simp only [Option.some.injEq, Prod.mk.injEq] at h
        obtain ⟨htr, _, _⟩ := h
        subst htr
        simp
  · intro b bs rest
    simp [writerRun, writerLoop, rstop, PyExn.isBlockingIOError,
      PyExn.caughtBySocketError, PyExn.isOSError]

theorem writerContract_witness :
    exWTr.all recvOk = true ∧ Ev.stopCallEv ∈ exWTr :=
  ⟨writerContract.2.1 exWIns exWTr ⟨false⟩ none (by decide),
   writerContract.2.2.2.2.2.1 exWIns exWTr ⟨false⟩ (by decide)⟩

/-- C10: the connectivity probe returns false for a missing socket, false
exactly when the one-byte receive yields empty (the peer closed), true when
the receive raises a socket error or would-block error, and true after
consuming exactly the first pending byte when data is available; the probe
runs right after the accept, and the session writer only ever feeds the
serial device chunks drawn from the stream left after that consumed byte. -/
theorem probeContract :
    is_socket_connected none = some (false, [])
    ∧ (∀ s : List SockEv, is_socket_connected (some (SockEv.closed :: s)) = some (false, s))
    ∧ (∀ s : List SockEv,
        is_socket_connected (some (SockEv.sockErr :: s)) = some (true, s)
        ∧ is_socket_connected (some (SockEv.wouldBlock :: s)) = some (true, s))
    ∧ (∀ (b : Nat) (bs : List Nat) (s : List SockEv),
        is_socket_connected (some (SockEv.chunk (b :: bs) :: s)) =
          some (true, if bs.isEmpty then s else SockEv.chunk bs :: s)
        ∧ dataFlat (SockEv.chunk (b :: bs) :: s) =
            b :: dataFlat (if bs.isEmpty then s else SockEv.chunk bs :: s))
    ∧ (∀ (s s₂ : List SockEv) (r : Bool), streamWF s = true →
        is_socket_connected (some s) = some (r, s₂) →
        (r = false ↔ s.head? = some SockEv.closed))
    ∧ (∀ (accepts : List AcceptRes) (trA : List Ev) (hst : String) (s' : List SockEv),
        acceptPhase accepts = some (trA, hst, s') →
        ∃ pre, trA = pre ++ [Ev.acceptOk hst, Ev.probeRecv true])
    ∧ (∀ (s : List SockEv) (sres : List (Option PyExn)) (tr : List Ev) (r : RState)
        (esc : Option PyExn), writerRun (mkWIns s sres) = some (tr, r, esc) →
        ∃ k, serialChunks tr = (dataChunks s).take k) := by
  refine ⟨rfl, fun s => rfl, fun s => ⟨rfl, rfl⟩, ?_, ?_, ?_, ?_⟩
  · intro b bs s
    refine ⟨rfl, ?_⟩
    cases bs <;> simp [dataFlat, dataChunks]
  · intro s s₂ r hwf h
    cases s with
    | nil => simp [is_socket_connected, recv1] at h
    | cons e t =>
      cases e with
      | chunk bs =>
        cases bs with
        | nil => simp [streamWF] at hwf
        | cons b bs' =>
          simp only [is_socket_connected, recv1, List.isEmpty_cons, Bool.not_false,
            Option.some.injEq, Prod.mk.injEq] at h
          obtain ⟨hr, _⟩ := h
          subst hr
          simp
      | closed =>
        simp only [is_socket_connected, recv1, List.isEmpty_nil, Bool.not_true,
          Option.some.injEq, Prod.mk.injEq] at h
        obtain ⟨hr, _⟩ := h
        subst hr
        simp
      | wouldBlock =>
        simp only [is_socket_connected, recv1, Option.some.injEq, Prod.mk.injEq] at h
        obtain ⟨hr, _⟩ := h
        subst hr
        simp
      | sockErr =>
        simp only [is_socket_connected, recv1, Option.some.injEq, Prod.mk.injEq] at h
        obtain ⟨hr, _⟩ := h
        subst hr
        simp
  · intro accepts trA hst s' hap
    exact (acceptPhase_spec accepts trA hst s' hap).2
  · intro s sres tr r esc h
    exact writerRun_chunks s sres tr r esc h

theorem probeContract_witness :
    ((false = false) ↔ ([SockEv.closed] : List SockEv).head? = some SockEv.closed)
    ∧ ∃ k, serialChunks exWTr =
        (dataChunks [SockEv.chunk [3], SockEv.closed]).take k :=
  ⟨probeContract.2.2.2.2.1 [SockEv.closed] [] false (by decide) (by decide),
   probeContract.2.2.2.2.2.2 [SockEv.chunk [3], SockEv.closed] [] exWTr ⟨false⟩ none
     (by decide)⟩

/-- C1 (amended): in every completed iteration of the main loop, no
serial-device operation happens before the first successful accept (the
client is accepted, probed and allowlisted before the serial device is
opened), and when a session ran, the iteration ends with the serial device
closed, its close being the final event, so the next iteration accepts a new
client before reopening the device. -/
theorem acceptBeforeSerialOpen (ser : SerialPort) (accepts : List AcceptRes)
    (opens : List OpenRes) (sres : List (Option PyExn)) (tr : List Ev)
    (ser' : SerialPort) (ex : LoopExit)
    (h : loopBody ser accepts opens sres = some (tr, ser', ex)) :
    ((tr.takeWhile fun e => !(isAcceptOk e)).all fun e => !(isSerialEv e)) = true
    ∧ (Ev.mkRedirectorEv ∈ tr →
        tr.getLast? = some Ev.serialCloseEv ∧ ser'.isOpen = false) := by
  cases hA : acceptPhase accepts with
  | none => simp [loopBody, hA] at h
  | some vA =>
    obtain ⟨trA, host, s'⟩ := vA
    simp only [loopBody, hA] at h
    obtain ⟨hallA, preA, hpreA⟩ := acceptPhase_spec accepts trA host s' hA
    have haccmem : Ev.acceptOk host ∈ trA := by rw [hpreA]; simp
    have hq : (fun e => !(isAcceptOk e)) (Ev.acceptOk host) = false := by
      simp [isAcceptOk]
    have hallA' : (trA.all fun e => !(isSerialEv e)) = true :=
      all_imp _ _ trA hallA
        (fun x hx => by cases x <;> simp_all [isAcceptPhaseEv, isSerialEv])
    by_cases hw : host ∈ IP_WHITELIST
    · rw [if_pos hw] at h
      cases hO : openPhase ser opens with
      | none => simp [hO] at h
      | some vO =>
        obtain ⟨trO, ser1⟩ := vO
        simp only [hO] at h
        cases hW : writerRun (mkWIns s' sres) with
        | none => simp [hW] at h
        | some vW =>
          obtain ⟨trW, rf, esc⟩ := vW
          simp only [hW, Option.some.injEq, Prod.mk.injEq] at h
          obtain ⟨htr, hser, _⟩ := h
          subst htr
          constructor
          · simp only [List.append_assoc]
            rw [takeWhile_append_stops _ trA _ (Ev.acceptOk host) haccmem hq]
            exact all_takeWhile _ _ trA hallA'
          · intro _
            exact ⟨getLast_after_teardown _ _, by rw [← hser]⟩
    · rw [if_neg hw] at h
      simp only [Option.some.injEq, Prod.mk.injEq] at h
      obtain ⟨htr, hser, _⟩ := h
      subst htr
      constructor
      · rw [takeWhile_append_stops _ trA _ (Ev.acceptOk host) haccmem hq]
        exact all_takeWhile _ _ trA hallA'
      · intro hmk
        rcases List.mem_append.mp hmk with hm | hm
        · have := List.all_eq_true.mp hallA _ hm
          simp [isAcceptPhaseEv] at this
        · simp at hm

/-- C1 counterexample: a concrete completed iteration in which the client is
accepted (and a session runs to completion) with no successful serial open
anywhere before the accept, refuting the claim that the device is opened
before the loop starts waiting for a client. -/
theorem acceptBeforeSerialOpen_cex :
    serialOpenPrecedesAccept exTrace = false
    ∧ Ev.serialOpenOk ∈ exTrace
    ∧ exTrace.any isAcceptOk = true
    ∧ Ev.mkRedirectorEv ∈ exTrace
    ∧ (exRun.map fun t => t.2.2) = some LoopExit.sessionDone := by decide

theorem acceptBeforeSerialOpen_witness :
    ((exTrace.takeWhile fun e => !(isAcceptOk e)).all fun e => !(isSerialEv e)) = true
    ∧ exTrace.getLast? = some Ev.serialCloseEv := by
  have h := acceptBeforeSerialOpen exSer exAccepts [OpenRes.ok] [] exTrace
    ⟨false, false, false, 7⟩ LoopExit.sessionDone (by decide)
  exact ⟨h.1, (h.2 (by decide)).1⟩

/-- C2: in every completed iteration whose session ran (the Redirector was
constructed), however the session ended, the teardown runs: the settings
snapshot taken before DTR and RTS were asserted is reapplied exactly once,
DTR and RTS are deasserted, the client socket and the serial device are
closed, stop is called, and the resulting serial state is closed with the
snapshot configuration restored. -/
theorem teardownRestoresSettings (ser : SerialPort) (accepts : List AcceptRes)
    (opens : List OpenRes) (sres : List (Option PyExn)) (tr : List Ev)
    (ser' : SerialPort) (ex : LoopExit)
    (h : loopBody ser accepts opens sres = some (tr, ser', ex))
    (hmk : Ev.mkRedirectorEv ∈ tr) :
    tr.count (Ev.applySettingsEv ser.cfg) = 1
    ∧ Ev.getSettingsEv ser.cfg ∈ tr
    ∧ Ev.setDtr true ∈ tr ∧ Ev.setRts true ∈ tr
    ∧ Ev.setDtr false ∈ tr ∧ Ev.setRts false ∈ tr
    ∧ Ev.clientClose ∈ tr ∧ Ev.serialCloseEv ∈ tr ∧ Ev.stopCallEv ∈ tr
    ∧ ser' = ⟨false, false, false, ser.cfg⟩ := by
  cases hA : acceptPhase accepts with
  | none => simp [loopBody, hA] at h
  | some vA =>
    obtain ⟨trA, host, s'⟩ := vA
    simp only [loopBody, hA] at h
    obtain ⟨hallA, preA, hpreA⟩ := acceptPhase_spec accepts trA host s' hA
    by_cases hw : host ∈ IP_WHITELIST
    · rw [if_pos hw] at h
      cases hO : openPhase ser opens with
      | none => simp [hO] at h
      | some vO =>
        obtain ⟨trO, ser1⟩ := vO
        simp only [hO] at h
        obtain ⟨hallO, hopen, hcfg, hdtr, hrts⟩ := openPhase_spec opens ser ser1 trO hO
        cases hW : writerRun (mkWIns s' sres) with
        | none => simp [hW] at h
        | some vW =>
          obtain ⟨trW, rf, esc⟩ := vW
          simp only [hW, Option.some.injEq, Prod.mk.injEq] at h
          obtain ⟨htr, hser, _⟩ := h
          have hallW := writerRun_all (mkWIns s' sres) trW rf esc hW
          subst htr
          rw [hcfg] at hser ⊢
          have h1 : trA.count (Ev.applySettingsEv ser.cfg) = 0 :=
            count_eq_zero_of_all isAcceptPhaseEv trA _ hallA rfl
          have h2 : trO.count (Ev.applySettingsEv ser.cfg) = 0 :=
            count_eq_zero_of_all isOpenPhaseEv trO _ hallO rfl
          have h3 : trW.count (Ev.applySettingsEv ser.cfg) = 0 :=
            count_eq_zero_of_all (fun e => isWriterEv e && recvOk e) trW _ hallW rfl
          refine ⟨?_, by simp, by simp, by simp, by simp [teardownTrace],
            by simp [teardownTrace], by simp [teardownTrace],
            by simp [teardownTrace], by simp [teardownTrace], hser.symm⟩
          simp [List.count_append, h1, h2, h3, teardownTrace, List.count_cons]
    · rw [if_neg hw] at h
      simp only [Option.some.injEq, Prod.mk.injEq] at h
      obtain ⟨htr, _, _⟩ := h
      subst htr
      rcases List.mem_append.mp hmk with hm | hm
      · have := List.all_eq_true.mp hallA _ hm
        simp [isAcceptPhaseEv] at this
      · simp at hm

theorem teardownRestoresSettings_witness :
    exTrace.count (Ev.applySettingsEv 7) = 1
    ∧ Ev.clientClose ∈ exTrace ∧ Ev.serialCloseEv ∈ exTrace := by
  have h := teardownRestoresSettings exSer exAccepts [OpenRes.ok] [] exTrace
    ⟨false, false, false, 7⟩ LoopExit.sessionDone (by decide) (by decide)
  exact ⟨h.1, h.2.2.2.2.2.2.1, h.2.2.2.2.2.2.2.1⟩

/-- C3: a session (Redirector construction) happens in a completed iteration
if and only if the accepted host is a member of the whitelist, membership
being exact string equality against the three fixed entries; a denied host
only adds a warning and a socket close to the trace, leaves the serial state
untouched, and no serial-device operation at all occurs in that iteration. -/
theorem allowlistGatesSession (ser : SerialPort) (accepts : List AcceptRes)
    (opens : List OpenRes) (sres : List (Option PyExn)) (tr : List Ev)
    (ser' : SerialPort) (ex : LoopExit) (trA : List Ev) (host : String)
    (s' : List SockEv)
    (h : loopBody ser accepts opens sres = some (tr, ser', ex))
    (hap : acceptPhase accepts = some (trA, host, s')) :
    (host ∉ IP_WHITELIST →
        tr = trA ++ [Ev.denyLog host, Ev.clientClose] ∧ ex = LoopExit.denied
        ∧ ser' = ser ∧ Ev.mkRedirectorEv ∉ tr
        ∧ (tr.all fun e => !(isSerialEv e)) = true)
    ∧ (host ∈ IP_WHITELIST → Ev.mkRedirectorEv ∈ tr)
    ∧ (∀ x : String,
        x ∈ IP_WHITELIST ↔ x = "localhost" ∨ x = "0.0.0.0" ∨ x = "127.0.0.1") := by
  simp only [loopBody, hap] at h
  obtain ⟨hallA, preA, hpreA⟩ := acceptPhase_spec accepts trA host s' hap
  refine ⟨?_, ?_, ?_⟩
  · intro hw
    rw [if_neg hw] at h
    simp only [Option.some.injEq, Prod.mk.injEq] at h
    obtain ⟨htr, hser, hex⟩ := h
    subst htr
    refine ⟨rfl, hex.symm, hser.symm, ?_, ?_⟩
    · intro hm
      rcases List.mem_append.mp hm with hm1 | hm1
      · have := List.all_eq_true.mp hallA _ hm1
        simp [isAcceptPhaseEv] at this
      · simp at hm1
    · rw [List.all_append]
      have hleft : (trA.all fun e => !(isSerialEv e)) = true :=
        all_imp _ _ trA hallA
          (fun x hx => by cases x <;> simp_all [isAcceptPhaseEv, isSerialEv])
      rw [hleft]
      simp [isSerialEv]
  · intro hw
    rw [if_pos hw] at h
    cases hO : openPhase ser opens with
    | none => simp [hO] at h
    | some vO =>
      obtain ⟨trO, ser1⟩ := vO
      simp only [hO] at h
      cases hW : writerRun (mkWIns s' sres) with
      | none => simp [hW] at h
      | some vW =>
        obtain ⟨trW, rf, esc⟩ := vW
        simp only [hW, Option.some.injEq, Prod.mk.injEq] at h
        obtain ⟨htr, _, _⟩ := h
        subst htr
        simp
  · intro x
    simp [IP_WHITELIST]

theorem allowlistGatesSession_witness :
    Ev.mkRedirectorEv ∉ exTraceD
    ∧ (exTraceD.all fun e => !(isSerialEv e)) = true
    ∧ ("127.0.0.2" ∈ IP_WHITELIST ↔ "127.0.0.2" = "localhost"
        ∨ "127.0.0.2" = "0.0.0.0" ∨ "127.0.0.2" = "127.0.0.1") := by
  have h := allowlistGatesSession exSer exAcceptsD [] [] exTraceD exSer
    LoopExit.denied [Ev.acceptOk "10.0.0.9", Ev.probeRecv true] "10.0.0.9" []
    (by decide) (by decide)
  have h1 := h.1 (by decide)
  exact ⟨h1.2.2.2.1, h1.2.2.2.2, h.2.2 "127.0.0.2"⟩

end SerialServer
